import Mathlib

/-
Verification development for the commit-graph repository (src/main.py).

The script fetches a GitHub profile page, extracts the yearly contribution
calendar, builds a date-keyed table of daily counts, aggregates the counts
by day of week, and renders a violin-plot figure with a smoothed mean curve
and a timeframe box, finally saving the figure to a file.

This file shallowly embeds the pipeline of src/main.py:
  - cells of the parsed HTML calendar are modelled as a structure holding
    the human readable text and the optional data-date attribute;
  - the pandas DataFrame built by the extraction loop is modelled as an
    association list from date strings to integer counts, where the loc
    assignment keeps the position of an existing key and overwrites its
    value (appending new keys at the end);
  - pandas max over an empty integer series yields NaN in the source; it is
    modelled here as an Option that is none exactly on the empty table, so
    that the zero-contribution guard (max == 0) does not fire on it;
  - Python exceptions are modelled with Except over an error type whose
    constructors mirror the raised or propagated Python exceptions;
  - dates are parsed from YYYY-MM-DD strings; the weekday (Monday = 0)
    is computed with the standard civil-calendar day-count algorithm;
  - the floating point numbers of the plotting code are modelled as exact
    rationals, with an executable rational type Q defined below;
  - the numeric helpers of scipy used by the plotting code are modelled
    over Q: the Savitzky-Golay filter with window length 3 and polynomial
    order 2 is the least-squares (here: exactly interpolating) local
    quadratic fit, and make_interp_spline with k = 3 is the interpolating
    not-a-knot cubic spline, computed by solving the standard linear system
    for the second derivatives with Gaussian elimination.
-/

/-- An exact rational number: numerator and positive denominator. All
operations below normalize through Q.mk2, so values built from the
constructors in this file keep a positive, reduced denominator. -/
structure Q where
  num : Int
  den : Int
deriving DecidableEq, Repr

/-- Normalized fraction n over d: sign moved to the numerator, divided by
the gcd. A zero denominator yields 0, mirroring the junk-value convention
for division by zero. -/
def Q.mk2 (n d : Int) : Q :=
  if d = 0 then ⟨0, 1⟩
  else
    let s : Int := if d < 0 then -1 else 1
    let n2 := s * n
    let d2 := s * d
    let g : Int := (Int.gcd n2 d2 : Nat)
    ⟨n2 / g, d2 / g⟩

def Q.add (a b : Q) : Q := Q.mk2 (a.num * b.den + b.num * a.den) (a.den * b.den)

def Q.sub (a b : Q) : Q := Q.mk2 (a.num * b.den - b.num * a.den) (a.den * b.den)

def Q.mul (a b : Q) : Q := Q.mk2 (a.num * b.num) (a.den * b.den)

def Q.div (a b : Q) : Q := Q.mk2 (a.num * b.den) (a.den * b.num)

def Q.neg (a : Q) : Q := ⟨-a.num, a.den⟩

/-- Comparison by cross multiplication (valid for positive denominators). -/
def Q.leb (a b : Q) : Bool := decide (a.num * b.den ≤ b.num * a.den)

/-- Strict comparison by cross multiplication. -/
def Q.ltb (a b : Q) : Bool := decide (a.num * b.den < b.num * a.den)

instance : Add Q := ⟨Q.add⟩

instance : Sub Q := ⟨Q.sub⟩

instance : Mul Q := ⟨Q.mul⟩

instance : Div Q := ⟨Q.div⟩

instance : Neg Q := ⟨Q.neg⟩

instance : Zero Q := ⟨⟨0, 1⟩⟩

instance : One Q := ⟨⟨1, 1⟩⟩

instance (n : Nat) : OfNat Q n := ⟨⟨(n : Int), 1⟩⟩

instance : NatCast Q := ⟨fun n => ⟨(n : Int), 1⟩⟩

instance : IntCast Q := ⟨fun n => ⟨n, 1⟩⟩

/-- One calendar day cell of the parsed HTML: the element text and the
optional data-date attribute, as exposed by the HTML parser. -/
structure Cell where
  text : String
  dataDate : Option String
deriving DecidableEq, Repr

/-- Errors of the pipeline, mirroring the Python exceptions that the source
raises or lets propagate. -/
inductive Err where
  /-- ValueError raised when the fetched body equals the Not Found sentinel. -/
  | userNotFound (username : String)
  /-- AttributeError from calling find_all on None when the calendar
  container div is absent. -/
  | attributeErrorNone
  /-- ValueError from int() on a non-numeric leading token. -/
  | valueErrorInt (token : String)
  /-- ValueError raised when the maximum count equals zero. -/
  | noContributionsFound (username : String)
  /-- Error from pd.to_datetime on a malformed date string. -/
  | dateParseError (s : String)
  /-- Error from make_interp_spline when a cubic spline cannot be built. -/
  | splineError
  /-- IndexError from reading index[0] of an empty table. -/
  | indexError
deriving DecidableEq, Repr

instance {ε α : Type} [DecidableEq ε] [DecidableEq α] : DecidableEq (Except ε α) := fun a b =>
  match a, b with
  | .ok x, .ok y =>
    if h : x = y then isTrue (by rw [h]) else isFalse (fun hh => h (by cases hh; rfl))
  | .error x, .error y =>
    if h : x = y then isTrue (by rw [h]) else isFalse (fun hh => h (by cases hh; rfl))
  | .ok _, .error _ => isFalse (fun hh => Except.noConfusion hh)
  | .error _, .ok _ => isFalse (fun hh => Except.noConfusion hh)

/-- A fetched document: the raw response body together with the parsed view
of the calendar container (none when the container div is absent, otherwise
the list of calendar day cells in document order). -/
structure Document where
  raw : String
  container : Option (List Cell)

/-- Leading token of the cell text: text.split(with a single space)[0],
which is the prefix of the text up to the first space character. -/
def firstToken (s : String) : String :=
  String.mk (s.data.takeWhile (fun c => c != ' '))

/-- Value of a nonempty all-digit character list, most significant first. -/
def digitsVal : List Char → Option Nat
  | [] => none
  | cs =>
    if cs.all Char.isDigit then
      some (cs.foldl (fun a c => a * 10 + (c.toNat - 48)) 0)
    else none

/-- Model of the Python int builtin on strings: surrounding whitespace is
stripped, an optional sign is allowed, and the rest must be a nonempty run
of decimal digits; anything else raises ValueError, modelled as none. -/
def pythonInt (s : String) : Option Int :=
  let cs := s.data.dropWhile Char.isWhitespace
  let cs := (cs.reverse.dropWhile Char.isWhitespace).reverse
  match cs with
  | '-' :: rest => (digitsVal rest).map (fun n => -(n : Int))
  | '+' :: rest => (digitsVal rest).map (fun n => (n : Int))
  | rest => (digitsVal rest).map (fun n => (n : Int))

/-- The count expression of the extraction loop:
n_contributions = int(first) if (first := item.text.split(...)[0]) != No
else 0, where int() raises ValueError on a malformed token. -/
def cellCount (c : Cell) : Except Err Int :=
  let first := firstToken c.text
  if first = "No" then .ok 0
  else
    match pythonInt first with
    | some n => .ok n
    | none => .error (.valueErrorInt first)

/-- One pandas loc assignment with a string label: if the label is already
present its value is overwritten in place, otherwise a new row is appended
at the end. -/
def locSet : List (String × Int) → String → Int → List (String × Int)
  | [], d, n => [(d, n)]
  | (d0, n0) :: rest, d, n =>
    if d0 = d then (d0, n) :: rest else (d0, n0) :: locSet rest d n

/-- One iteration of the extraction loop on one cell: cells with empty text
are skipped, then the count is computed (possibly raising), then the row is
inserted only when the data-date attribute is present and truthy. -/
def cellStep (acc : List (String × Int)) (c : Cell) : Except Err (List (String × Int)) :=
  if c.text = "" then .ok acc
  else
    match cellCount c with
    | .error e => .error e
    | .ok n =>
      match c.dataDate with
      | some d => if d = "" then .ok acc else .ok (locSet acc d n)
      | none => .ok acc

/-- The extraction loop over all cells, threading the table accumulator. -/
def processCells : List Cell → List (String × Int) → Except Err (List (String × Int))
  | [], acc => .ok acc
  | c :: rest, acc =>
    match cellStep acc c with
    | .error e => .error e
    | .ok acc2 => processCells rest acc2

/-- The (date, count) pairs a cell list contributes, in document order:
exactly the insertions the loop performs when no parse error occurs. -/
def extractedPairs (cells : List Cell) : List (String × Int) :=
  cells.filterMap (fun c =>
    if c.text = "" then none
    else
      match cellCount c with
      | .error _ => none
      | .ok n =>
        match c.dataDate with
        | some d => if d = "" then none else some (d, n)
        | none => none)

/-- Maximum of the count column. pandas yields NaN on an empty integer
series (so that a comparison with 0 is false); this is modelled by none. -/
def maxCount (tbl : List (String × Int)) : Option Int :=
  match tbl.map Prod.snd with
  | [] => none
  | x :: xs => some (xs.foldl max x)

/-- A calendar date at day granularity. -/
structure Date where
  year : Int
  month : Nat
  day : Nat
deriving DecidableEq, Repr

/-- Split a character list at every occurrence of a separator character. -/
def splitChar (sep : Char) : List Char → List (List Char)
  | [] => [[]]
  | c :: rest =>
    let r := splitChar sep rest
    if c = sep then [] :: r
    else
      match r with
      | h :: t => (c :: h) :: t
      | [] => [[c]]

/-- Model of pd.to_datetime on one YYYY-MM-DD string: three dash-separated
numeric fields with the month and day in plausible ranges; a malformed
string raises, modelled as none. -/
def parseDate (s : String) : Option Date :=
  match splitChar '-' s.data with
  | [ys, ms, ds] =>
    match digitsVal ys, digitsVal ms, digitsVal ds with
    | some y, some m, some d =>
      if 1 ≤ m ∧ m ≤ 12 ∧ 1 ≤ d ∧ d ≤ 31 then some ⟨(y : Int), m, d⟩ else none
    | _, _, _ => none
  | _ => none

/-- Days since 1970-01-01 of a civil date (standard civil-calendar
algorithm, with the truncating integer division of its C reference form). -/
def daysFromCivil (dt : Date) : Int :=
  let y : Int := if dt.month ≤ 2 then dt.year - 1 else dt.year
  let era : Int := Int.tdiv (if 0 ≤ y then y else y - 399) 400
  let yoe : Int := y - era * 400
  let mp : Nat := (dt.month + 9) % 12
  let doy : Nat := (153 * mp + 2) / 5 + dt.day - 1
  let doe : Int := yoe * 365 + Int.tdiv yoe 4 - Int.tdiv yoe 100 + (doy : Int)
  era * 146097 + doe - 719468

/-- Day of week as pandas dayofweek: Monday = 0 through Sunday = 6.
1970-01-01 (day number 0) was a Thursday, hence the offset 3. -/
def dayOfWeek (dt : Date) : Int := (daysFromCivil dt + 3) % 7

/-- Parse every date label of the table, as pd.to_datetime does on the
index; the first malformed label raises. -/
def parseDatesTable : List (String × Int) → Except Err (List (Date × Int))
  | [] => .ok []
  | (s, n) :: rest =>
    match parseDate s with
    | none => .error (.dateParseError s)
    | some dt =>
      match parseDatesTable rest with
      | .error e => .error e
      | .ok r => .ok ((dt, n) :: r)

/-- The extraction stages after the Not Found check of get_contributions:
locate the container (AttributeError when absent), run the cell loop, apply
the zero-contribution guard, and parse the index to dates. -/
def parseAndBuild (username : String) (container : Option (List Cell)) :
    Except Err (List (Date × Int)) :=
  match container with
  | none => .error .attributeErrorNone
  | some cells =>
    match processCells cells [] with
    | .error e => .error e
    | .ok tbl =>
      if maxCount tbl = some 0 then .error (.noContributionsFound username)
      else parseDatesTable tbl

/-- Embedding of get_contributions: the fetched body is first compared with
the Not Found sentinel, then the document is parsed and the table built. -/
def get_contributions (username : String) (doc : Document) :
    Except Err (List (Date × Int)) :=
  if doc.raw = "Not Found" then .error (.userNotFound username)
  else parseAndBuild username doc.container

/-- Chronological (lexicographic) order on civil dates, as pandas compares
timestamps. -/
def dleb (a b : Date) : Bool :=
  decide (a.year < b.year ∨ (a.year = b.year ∧
    (a.month < b.month ∨ (a.month = b.month ∧ a.day ≤ b.day))))

/-- The dates of a list are in chronological (non-decreasing) order. -/
def chronB : List Date → Bool
  | [] => true
  | [_] => true
  | a :: b :: rest => dleb a b && chronB (b :: rest)

/-- Grouping key of a table row: the derived day_of_week column. -/
def keyOf (p : Date × Int) : Int := dayOfWeek p.1

/-- The distinct day_of_week keys in ascending order, as pandas groupby
enumerates its groups. -/
def sortedKeys (t : List (Date × Int)) : List Int :=
  ((t.map keyOf).dedup).insertionSort (fun a b => a ≤ b)

/-- The counts of the rows with the given day_of_week key, in row order. -/
def bucket (t : List (Date × Int)) (k : Int) : List Int :=
  (t.filter (fun p => keyOf p == k)).map Prod.snd

/-- Embedding of groupby(day_of_week)[contributions].apply(list).values:
one list of counts per distinct weekday present, keys ascending. -/
def groupList (t : List (Date × Int)) : List (List Int) :=
  (sortedKeys t).map (bucket t)

/-- Arithmetic mean of a list of counts, over the rationals. -/
def qmean (l : List Int) : Q :=
  (l.map (fun n : Int => (n : Q))).sum / (l.length : Q)

/-- Embedding of groupby(day_of_week).mean(): pairs of the distinct weekday
keys (ascending) with the mean count of the corresponding bucket. -/
def groupMeans (t : List (Date × Int)) : List (Int × Q) :=
  (sortedKeys t).map (fun k => (k, qmean (bucket t k)))

/-- The interpolating quadratic through three points, in Lagrange form.
For window length 3 and polynomial order 2 the least-squares fit of the
Savitzky-Golay filter is exactly this interpolant. -/
def quadFit3 (x0 x1 x2 y0 y1 y2 x : Q) : Q :=
  y0 * ((x - x1) * (x - x2)) / ((x0 - x1) * (x0 - x2))
    + y1 * ((x - x0) * (x - x2)) / ((x1 - x0) * (x1 - x2))
    + y2 * ((x - x0) * (x - x1)) / ((x2 - x0) * (x2 - x1))

/-- Model of scipy savgol_filter with window length 3, polynomial order 2
and the default interp mode: interior samples take the value at the centre
of the local quadratic fit; the first and last sample take the value of the
quadratic fitted to the first, respectively last, three samples. -/
def savgol_filter32 (ys : List Q) : List Q :=
  let n := ys.length
  let g := fun j => ys.getD j 0
  (List.range n).map (fun j =>
    if j = 0 then quadFit3 0 1 2 (g 0) (g 1) (g 2) 0
    else if j = n - 1 then quadFit3 0 1 2 (g (n - 3)) (g (n - 2)) (g (n - 1)) 2
    else quadFit3 (-1) 0 1 (g (j - 1)) (g j) (g (j + 1)) 0)

/-- Model of numpy linspace: n evenly spaced samples from a to b, both
endpoints included. -/
def linspace (a b : Q) (n : Nat) : List Q :=
  (List.range n).map (fun i : Nat => a + (b - a) * (i : Q) / ((n : Q) - 1))

/-- An interpolating cubic spline: knot positions, knot values, and the
second derivatives at the knots. -/
structure SplineData where
  xs : List Q
  ys : List Q
  ms : List Q
deriving Repr

/-- Row i of the linear system for the second derivatives of the
not-a-knot cubic spline on the given knots: the first and last row state
third-derivative continuity at the second and second-to-last knot, the
interior rows state the standard continuity conditions. -/
def notAKnotRow (xs : List Q) (n : Nat) (i : Nat) : List Q :=
  let x := fun j => xs.getD j 0
  let h := fun j => x (j + 1) - x j
  (List.range n).map (fun j =>
    if i = 0 then
      if j = 0 then -(1 / h 0)
      else if j = 1 then 1 / h 0 + 1 / h 1
      else if j = 2 then -(1 / h 1)
      else 0
    else if i = n - 1 then
      if j = n - 3 then -(1 / h (n - 3))
      else if j = n - 2 then 1 / h (n - 3) + 1 / h (n - 2)
      else if j = n - 1 then -(1 / h (n - 2))
      else 0
    else
      if j = i - 1 then h (i - 1) / 6
      else if j = i then (h (i - 1) + h i) / 3
      else if j = i + 1 then h i / 6
      else 0)

/-- Right-hand side i of the not-a-knot system: zero for the two
third-derivative rows, divided differences for the interior rows. -/
def notAKnotRhs (xs ys : List Q) (n : Nat) (i : Nat) : Q :=
  let x := fun j => xs.getD j 0
  let y := fun j => ys.getD j 0
  let h := fun j => x (j + 1) - x j
  if i = 0 then 0
  else if i = n - 1 then 0
  else (y (i + 1) - y i) / h i - (y i - y (i - 1)) / h (i - 1)

/-- First row with a nonzero leading coefficient, and the other rows. -/
def pivotRow : List (List Q) → Option (List Q × List (List Q))
  | [] => none
  | r :: rest =>
    if r.headD 0 ≠ 0 then some (r, rest)
    else
      match pivotRow rest with
      | none => none
      | some (p, others) => some (p, r :: others)

/-- Eliminate the leading coefficient of a row using the pivot row, and
drop the (now zero) leading entry. -/
def elimStep (pivot row : List Q) : List Q :=
  let factor := row.headD 0 / pivot.headD 1
  (List.zipWith (fun a b => a - factor * b) row pivot).tail

/-- Forward elimination on augmented rows, one variable at a time,
returning the pivot rows of the triangular system. -/
def forwardElim : Nat → List (List Q) → Option (List (List Q))
  | 0, _ => some []
  | n + 1, rows =>
    match pivotRow rows with
    | none => none
    | some (p, rest) =>
      match forwardElim n (rest.map (elimStep p)) with
      | none => none
      | some tri => some (p :: tri)

/-- Back substitution on the triangular rows produced by forwardElim. -/
def backSub : List (List Q) → List Q
  | [] => []
  | r :: rest =>
    let sol := backSub rest
    let rhs := r.getLastD 0
    let dot := (List.zipWith (fun a b => a * b) r.tail.dropLast sol).sum
    ((rhs - dot) / r.headD 1) :: sol

/-- Exact rational Gaussian elimination for a square system. -/
def gaussSolve (rows : List (List Q)) (rhs : List Q) : Option (List Q) :=
  match forwardElim rows.length (List.zipWith (fun r b => r ++ [b]) rows rhs) with
  | none => none
  | some tri => some (backSub tri)

/-- The knot positions are strictly increasing. -/
def strictIncB : List Q → Bool
  | [] => true
  | [_] => true
  | a :: b :: rest => Q.ltb a b && strictIncB (b :: rest)

/-- Model of scipy make_interp_spline with k = 3 and the default boundary
condition: the interpolating not-a-knot cubic spline through the given
points, requiring at least 4 strictly increasing knots. -/
def make_interp_spline (xs ys : List Q) : Option SplineData :=
  if xs.length < 4 then none
  else if xs.length ≠ ys.length then none
  else if strictIncB xs = false then none
  else
    let n := xs.length
    match gaussSolve ((List.range n).map (notAKnotRow xs n))
        ((List.range n).map (notAKnotRhs xs ys n)) with
    | none => none
    | some m => some ⟨xs, ys, m⟩

/-- Index of the spline piece used for evaluation at x: the number of
interior knots not exceeding x, which clamps to the outer pieces for
arguments beyond the knot range. -/
def intervalIdx (xs : List Q) (x : Q) : Nat :=
  ((xs.drop 1).dropLast).countP (fun t => Q.leb t x)

/-- Evaluate the cubic spline at x, in the standard second-derivative
form of the piece containing x. -/
def evalCubicSpline (s : SplineData) (x : Q) : Q :=
  let i := intervalIdx s.xs x
  let x0 := s.xs.getD i 0
  let x1 := s.xs.getD (i + 1) 0
  let h := x1 - x0
  let A := (x1 - x) / h
  let B := (x - x0) / h
  A * s.ys.getD i 0 + B * s.ys.getD (i + 1) 0
    + ((A * A * A - A) * s.ms.getD i 0 + (B * B * B - B) * s.ms.getD (i + 1) 0) * h * h / 6

/-- Embedding of the smoothed mean curve of add_means: apply the
Savitzky-Golay filter (window 3, order 2) to the bucket means, build the
cubic spline through the smoothed values at the group keys plus one, and
sample it at 100 evenly spaced positions across the interval from 1 to 7. -/
def add_means_curve (t : List (Date × Int)) : Option (List (Q × Q)) :=
  let means := groupMeans t
  let smoother := savgol_filter32 (means.map Prod.snd)
  let xpos := means.map (fun p => ((p.1 : Q) + 1))
  match make_interp_spline xpos smoother with
  | none => none
  | some spl => some ((linspace 1 7 100).map (fun x => (x, evalCubicSpline spl x)))

/-- The rendered figure, holding the data-determined content the claims
speak about: the title, the weekday buckets, the mean markers, the smoothed
curve, the y tick step, and the timeframe box contents. -/
structure Figure where
  title : String
  buckets : List (List Int)
  meanPoints : List (Q × Q)
  curve : List (Q × Q)
  yStep : Int
  timeframe : Date × Date

/-- Embedding of plot_contributions: reading index[0] of an empty table
raises IndexError; otherwise the start and stop dates are the first and
last rows of the table, the data is grouped by day of week, and the mean
curve is built (raising when the spline cannot be constructed). -/
def plot_contributions (t : List (Date × Int)) (username : String) :
    Except Err Figure :=
  match t with
  | [] => .error .indexError
  | p :: rest =>
    let start := p.1
    let stop := ((p :: rest).getLast (List.cons_ne_nil p rest)).1
    let maxC := ((p :: rest).map Prod.snd).foldl max p.2
    match add_means_curve (p :: rest) with
    | none => .error .splineError
    | some curve =>
      .ok {
        title := "Contributions per day of week (" ++ username ++ ")"
        buckets := groupList (p :: rest)
        meanPoints := (groupMeans (p :: rest)).map (fun q => ((q.1 : Q) + 1, q.2))
        curve := curve
        yStep := max (Int.fdiv maxC 5) 1
        timeframe := (start, stop)
      }

/-- The timeframe box contents of a plotting result, when one exists. -/
def figTimeframe (r : Except Err Figure) : Option (Date × Date) :=
  match r with
  | .ok f => some f.timeframe
  | .error _ => none

/-- Observable file-system effects of one run. -/
structure World where
  written : List String
deriving DecidableEq, Repr

/-- Embedding of main: fetch and extract, then plot, then (only on success
of both) write the output file. An error in any stage aborts the run with
that error and no write occurs. -/
def runMain (username : String) (doc : Document) : Except Err Figure × World :=
  match get_contributions username doc with
  | .error e => (.error e, ⟨[]⟩)
  | .ok tbl =>
    match plot_contributions tbl username with
    | .error e => (.error e, ⟨[]⟩)
    | .ok fig => (.ok fig, ⟨["contributions.png"]⟩)

/-- The keys (index labels) of a table are pairwise distinct. -/
def NodupKeys (tbl : List (String × Int)) : Prop := (tbl.map Prod.fst).Nodup

/-- Value of the last pair carrying the given date, scanning in order. -/
def lastValue (pairs : List (String × Int)) (d : String) : Option Int :=
  pairs.foldl (fun o p => if p.1 == d then some p.2 else o) none

/-- Concrete cell lists and tables used by the closed witness and
counterexample statements below. -/
def zeroCells : List Cell := [⟨"No contributions on January 1st.", some "2024-01-01"⟩]

def docNoCells : Document := ⟨"<html></html>", some []⟩

def skippedCells : List Cell :=
  [⟨"", some "2024-01-01"⟩, ⟨"5 contributions on Jan 2", none⟩,
   ⟨"No contributions on Jan 3", some ""⟩]

def badCell : Cell := ⟨"garbage", none⟩

def dupCells : List Cell :=
  [⟨"2 contributions on Jan 1", some "2024-01-01"⟩,
   ⟨"5 contributions on Jan 1", some "2024-01-01"⟩]

def singleDayTable : List (Date × Int) := [(⟨2024, 1, 1⟩, 5)]

def tWeek : List (Date × Int) :=
  [(⟨2024, 1, 1⟩, 1), (⟨2024, 1, 2⟩, 0), (⟨2024, 1, 3⟩, 3), (⟨2024, 1, 4⟩, 2),
   (⟨2024, 1, 5⟩, 5), (⟨2024, 1, 6⟩, 0), (⟨2024, 1, 7⟩, 4)]

def tOutOfOrder : List (Date × Int) :=
  [(⟨2024, 1, 8⟩, 1), (⟨2024, 1, 2⟩, 0), (⟨2024, 1, 3⟩, 3), (⟨2024, 1, 4⟩, 2),
   (⟨2024, 1, 5⟩, 5), (⟨2024, 1, 6⟩, 0), (⟨2024, 1, 7⟩, 4)]

/-- The bucket means in weekday order, Monday first, as the smoothing step
of add_means consumes them. -/
def weekdayMeans (t : List (Date × Int)) : List Q := (groupMeans t).map Prod.snd

/-- The smoothed mean curve exactly as the claim words it: Savitzky-Golay
filter (window length 3, polynomial order 2) over the 7 weekday means in
Monday-to-Sunday order, an interpolating cubic spline through the smoothed
values at knot positions 1 through 7, evaluated at 100 evenly spaced points
across the interval from 1 to 7. -/
def spec_smooth_curve (ms : List Q) : Option (List (Q × Q)) :=
  match make_interp_spline [1, 2, 3, 4, 5, 6, 7] (savgol_filter32 ms) with
  | none => none
  | some spl => some ((linspace 1 7 100).map (fun x => (x, evalCubicSpline spl x)))

lemma cellCount_error_shape (c : Cell) (e : Err) (h : cellCount c = .error e) :
    ∃ s, e = .valueErrorInt s := by
  simp only [cellCount] at h
  split at h
  · exact Except.noConfusion h
  · split at h
    · exact Except.noConfusion h
    · injection h with h2
      exact ⟨firstToken c.text, h2.symm⟩

lemma cellStep_error_shape (acc : List (String × Int)) (c : Cell) (e : Err)
    (h : cellStep acc c = .error e) : ∃ s, e = .valueErrorInt s := by
  simp only [cellStep] at h
  split at h
  · exact Except.noConfusion h
  · split at h
    · rename_i e2 heq
      injection h with h2
      exact h2 ▸ cellCount_error_shape c e2 heq
    · split at h
      · split at h
        · exact Except.noConfusion h
        · exact Except.noConfusion h
      · exact Except.noConfusion h

lemma processCells_error_shape (cells : List Cell) :
    ∀ (acc : List (String × Int)) (e : Err), processCells cells acc = .error e →
      ∃ s, e = .valueErrorInt s := by
  induction cells with
  | nil => intro acc e h; exact Except.noConfusion h
  | cons c rest ih =>
    intro acc e h
    simp only [processCells] at h
    split at h
    · rename_i e2 heq
      injection h with h2
      exact h2 ▸ cellStep_error_shape acc c e2 heq
    · rename_i acc2 heq
      exact ih acc2 e h

lemma parseDatesTable_error_shape (tbl : List (String × Int)) :
    ∀ e : Err, parseDatesTable tbl = .error e → ∃ s, e = .dateParseError s := by
  induction tbl with
  | nil => intro e h; exact Except.noConfusion h
  | cons p rest ih =>
    intro e h
    rcases p with ⟨s, n⟩
    simp only [parseDatesTable] at h
    split at h
    · injection h with h2
      exact ⟨s, h2.symm⟩
    · split at h
      · rename_i e2 heq
        injection h with h2
        exact h2 ▸ ih e2 heq
      · exact Except.noConfusion h

lemma parseAndBuild_never_userNotFound (u v : String) (container : Option (List Cell)) :
    parseAndBuild u container ≠ .error (.userNotFound v) := by
  intro h
  simp only [parseAndBuild] at h
  split at h
  · exact Err.noConfusion (Except.error.inj h)
  · rename_i cells
    split at h
    · rename_i e heq
      injection h with h2
      obtain ⟨s, hs⟩ := processCells_error_shape cells [] e heq
      rw [hs] at h2
      exact Err.noConfusion h2
    · rename_i tbl heq
      split at h
      · exact Err.noConfusion (Except.error.inj h)
      · rcases hp : parseDatesTable tbl with e2 | r
        · rw [hp] at h
          injection h with h2
          obtain ⟨s, hs⟩ := parseDatesTable_error_shape tbl e2 hp
          rw [hs] at h2
          exact Err.noConfusion h2
        · rw [hp] at h
          exact Except.noConfusion h

/-- Claim C1: for a calendar-day cell with non-empty text, the extracted
count is 0 when the leading token of the text is the literal No, and
otherwise it is the integer value of that leading token; a cell with empty
text is skipped and leaves the table unchanged. -/
theorem c1_cell_count_extraction (c : Cell) (acc : List (String × Int)) :
    (c.text = "" → cellStep acc c = .ok acc)
    ∧ (c.text ≠ "" → firstToken c.text = "No" → cellCount c = .ok 0)
    ∧ (∀ n : Int, c.text ≠ "" → firstToken c.text ≠ "No" →
        pythonInt (firstToken c.text) = some n → cellCount c = .ok n) := by
  refine ⟨fun h => ?_, fun _ h => ?_, fun n _ hno hp => ?_⟩
  · simp [cellStep, h]
  · simp [cellCount, h]
  · simp [cellCount, hno, hp]

theorem c1_cell_count_extraction_witness :
    (Cell.text ⟨"3 contributions on Jan 1", some "2024-01-01"⟩ ≠ ""
      ∧ firstToken "3 contributions on Jan 1" ≠ "No"
      ∧ pythonInt (firstToken "3 contributions on Jan 1") = some 3)
    ∧ cellCount ⟨"3 contributions on Jan 1", some "2024-01-01"⟩ = .ok 3 :=
  ⟨⟨by decide, by decide, by decide⟩,
    (c1_cell_count_extraction ⟨"3 contributions on Jan 1", some "2024-01-01"⟩ []).2.2 3
      (by decide) (by decide) (by decide)⟩

/-- Claim C4: the fetch stage fails with a UserNotFound error naming the
username exactly when the fetched body equals the Not Found sentinel, and
any other body is passed on to the parsing stages unchanged. -/
theorem c4_user_not_found_iff (u : String) (doc : Document) :
    (get_contributions u doc = .error (.userNotFound u) ↔ doc.raw = "Not Found")
    ∧ (doc.raw ≠ "Not Found" → get_contributions u doc = parseAndBuild u doc.container) := by
  constructor
  · constructor
    · intro h
      by_contra hraw
      rw [get_contributions, if_neg hraw] at h
      exact parseAndBuild_never_userNotFound u u doc.container h
    · intro h
      rw [get_contributions, if_pos h]
  · intro h
    rw [get_contributions, if_neg h]

theorem c4_user_not_found_iff_witness :
    (get_contributions "alice" ⟨"Not Found", none⟩ = .error (.userNotFound "alice")
      ↔ Document.raw ⟨"Not Found", none⟩ = "Not Found") :=
  (c4_user_not_found_iff "alice" ⟨"Not Found", none⟩).1

/-- Claim C5: when the calendar container element is absent, extraction
fails with an error and in particular never returns a table. -/
theorem c5_missing_container_fails (u : String) (doc : Document)
    (h : doc.container = none) :
    (∃ e, get_contributions u doc = .error e)
    ∧ ∀ tbl, get_contributions u doc ≠ .ok tbl := by
  have hmain : ∃ e, get_contributions u doc = .error e := by
    by_cases hraw : doc.raw = "Not Found"
    · exact ⟨.userNotFound u, by rw [get_contributions, if_pos hraw]⟩
    · refine ⟨.attributeErrorNone, ?_⟩
      rw [get_contributions, if_neg hraw, h]
      rfl
  obtain ⟨e, he⟩ := hmain
  refine ⟨⟨e, he⟩, fun tbl hok => ?_⟩
  rw [he] at hok
  exact Except.noConfusion hok

theorem c5_missing_container_fails_witness :
    Document.container ⟨"<html></html>", none⟩ = none
    ∧ ((∃ e, get_contributions "alice" ⟨"<html></html>", none⟩ = .error e)
        ∧ ∀ tbl, get_contributions "alice" ⟨"<html></html>", none⟩ ≠ .ok tbl) :=
  ⟨rfl, c5_missing_container_fails "alice" ⟨"<html></html>", none⟩ rfl⟩

/-- Claim C9: the output file is written exactly on the runs in which every
stage succeeds; a run in which any stage raises an error performs no write. -/
theorem c9_no_write_on_error (u : String) (doc : Document) :
    (∀ e, (runMain u doc).1 = .error e → (runMain u doc).2.written = [])
    ∧ (∀ fig, (runMain u doc).1 = .ok fig →
        (runMain u doc).2.written = ["contributions.png"]) := by
  rcases hg : get_contributions u doc with e | tbl
  · refine ⟨fun e2 _ => ?_, fun fig h => ?_⟩
    · simp [runMain, hg]
    · exfalso
      simp [runMain, hg] at h
  · rcases hp : plot_contributions tbl u with e | fig
    · refine ⟨fun e2 _ => ?_, fun fig2 h => ?_⟩
      · simp [runMain, hg, hp]
      · exfalso
        simp [runMain, hg, hp] at h
    · refine ⟨fun e2 h => ?_, fun fig2 _ => ?_⟩
      · exfalso
        simp [runMain, hg, hp] at h
      · simp [runMain, hg, hp]

theorem c9_no_write_on_error_witness :
    (runMain "ghost" ⟨"Not Found", none⟩).1 = .error (.userNotFound "ghost")
    ∧ (runMain "ghost" ⟨"Not Found", none⟩).2.written = [] :=
  ⟨rfl, (c9_no_write_on_error "ghost" ⟨"Not Found", none⟩).1 (.userNotFound "ghost") rfl⟩

lemma foldl_max_of_all_zero (l : List Int) (h : ∀ x ∈ l, x = 0) :
    l.foldl max 0 = 0 := by
  induction l with
  | nil => rfl
  | cons x xs ih =>
    have hx : x = 0 := h x (List.mem_cons_self x xs)
    have : ∀ y ∈ xs, y = 0 := fun y hy => h y (List.mem_cons_of_mem x hy)
    simp [hx, ih this]

lemma maxCount_all_zero (tbl : List (String × Int)) (hne : tbl ≠ [])
    (hz : ∀ p ∈ tbl, p.2 = 0) : maxCount tbl = some 0 := by
  rcases tbl with _ | ⟨p, rest⟩
  · exact absurd rfl hne
  · simp only [maxCount, List.map_cons]
    have hp : p.2 = 0 := hz p (List.mem_cons_self p rest)
    have hrest : ∀ x ∈ rest.map Prod.snd, x = 0 := by
      intro x hx
      obtain ⟨q, hq, rfl⟩ := List.mem_map.mp hx
      exact hz q (List.mem_cons_of_mem p hq)
    rw [hp, foldl_max_of_all_zero _ hrest]

/-- Claim C3 (amended): when extraction produced at least one record and
every extracted count is 0, get_contributions fails with the
NoContributionsFound error naming the username. -/
theorem c3_zero_guard_nonempty (u raw : String) (cells : List Cell)
    (tbl : List (String × Int)) (hraw : raw ≠ "Not Found")
    (hp : processCells cells [] = .ok tbl) (hne : tbl ≠ [])
    (hz : ∀ p ∈ tbl, p.2 = 0) :
    get_contributions u ⟨raw, some cells⟩ = .error (.noContributionsFound u) := by
  rw [get_contributions]
  simp only [if_neg hraw]
  simp only [parseAndBuild, hp]
  rw [if_pos (maxCount_all_zero tbl hne hz)]

theorem c3_zero_guard_nonempty_witness :
    processCells zeroCells [] = .ok [("2024-01-01", 0)]
    ∧ get_contributions "alice" ⟨"<html></html>", some zeroCells⟩ =
        .error (.noContributionsFound "alice") :=
  ⟨by decide,
    c3_zero_guard_nonempty "alice" "<html></html>" zeroCells [("2024-01-01", 0)]
      (by decide) (by decide) (by decide) (by decide)⟩

/-- Claim C3 counterexample: on an extraction result with no records every
count is zero vacuously, yet get_contributions succeeds with the empty
table and the pipeline later fails with IndexError, not with
NoContributionsFound. -/
theorem c3_empty_extraction_counterexample :
    get_contributions "alice" docNoCells = .ok []
    ∧ (∀ p ∈ ([] : List (Date × Int)), p.2 = 0)
    ∧ (runMain "alice" docNoCells).1 = .error .indexError
    ∧ Err.indexError ≠ Err.noContributionsFound "alice" := by
  refine ⟨by decide, by simp, rfl, by decide⟩

lemma le_foldl_max (l : List Int) : ∀ a : Int,
    a ≤ l.foldl max a ∧ ∀ x ∈ l, x ≤ l.foldl max a := by
  induction l with
  | nil => exact fun a => ⟨le_refl a, by simp⟩
  | cons y ys ih =>
    intro a
    obtain ⟨h1, h2⟩ := ih (max a y)
    refine ⟨le_trans (le_max_left a y) h1, ?_⟩
    intro x hx
    rcases List.mem_cons.mp hx with rfl | hx2
    · exact le_trans (le_max_right a x) h1
    · exact h2 x hx2

lemma cellStep_skip (acc : List (String × Int)) (c : Cell)
    (h : c.text = "" ∨ ((cellCount c).isOk = true
      ∧ (c.dataDate = none ∨ c.dataDate = some ""))) :
    cellStep acc c = .ok acc := by
  rcases h with h | ⟨hok, hd⟩
  · simp [cellStep, h]
  · by_cases ht : c.text = ""
    · simp [cellStep, ht]
    · rcases hc : cellCount c with e | n
      · rw [hc] at hok
        exact absurd hok (by simp [Except.isOk, Except.toBool])
      · rcases hd with hd | hd <;> simp [cellStep, ht, hc, hd]

lemma processCells_all_skip (cells : List Cell)
    (h : ∀ c ∈ cells, c.text = "" ∨ ((cellCount c).isOk = true
      ∧ (c.dataDate = none ∨ c.dataDate = some ""))) :
    ∀ acc, processCells cells acc = .ok acc := by
  induction cells with
  | nil => intro acc; rfl
  | cons c rest ih =>
    intro acc
    have hc := cellStep_skip acc c (h c (List.mem_cons_self c rest))
    simp only [processCells, hc]
    exact ih (fun c2 hc2 => h c2 (List.mem_cons_of_mem c hc2)) acc

/-- Claim C10 (amended): when the container and cells are present but every
cell is skipped (empty text, or a parseable count together with a missing
or empty date attribute), get_contributions raises no error and returns the
empty table; the zero-contribution guard compares the maximum count with 0,
that maximum is none (NaN) on an empty table, and the guard can fire only
when at least one record exists, in which case nonnegative counts must all
be zero. -/
theorem c10_skipped_cells_empty_ok (u raw : String) (cells : List Cell)
    (hraw : raw ≠ "Not Found")
    (hskip : ∀ c ∈ cells, c.text = "" ∨ ((cellCount c).isOk = true
      ∧ (c.dataDate = none ∨ c.dataDate = some ""))) :
    get_contributions u ⟨raw, some cells⟩ = .ok []
    ∧ maxCount [] = none
    ∧ (∀ tbl : List (String × Int), maxCount tbl = some 0 →
        tbl ≠ [] ∧ ((∀ p ∈ tbl, 0 ≤ p.2) → ∀ p ∈ tbl, p.2 = 0)) := by
  refine ⟨?_, rfl, ?_⟩
  · rw [get_contributions]
    simp only [if_neg hraw]
    simp only [parseAndBuild, processCells_all_skip cells hskip []]
    rfl
  · intro tbl hmax
    rcases tbl with _ | ⟨p, rest⟩
    · exact absurd hmax (by simp [maxCount])
    · refine ⟨by simp, ?_⟩
      intro hnn q hq
      simp only [maxCount, List.map_cons] at hmax
      injection hmax with hm
      obtain ⟨h1, h2⟩ := le_foldl_max (rest.map Prod.snd) p.2
      have hub : q.2 ≤ 0 := by
        rcases List.mem_cons.mp hq with rfl | hq2
        · exact hm ▸ h1
        · exact hm ▸ h2 q.2 (List.mem_map.mpr ⟨q, hq2, rfl⟩)
      exact le_antisymm hub (hnn q hq)

theorem c10_skipped_cells_empty_ok_witness :
    ("<html></html>" ≠ "Not Found")
    ∧ get_contributions "alice" ⟨"<html></html>", some skippedCells⟩ = .ok [] :=
  ⟨by decide,
    (c10_skipped_cells_empty_ok "alice" "<html></html>" skippedCells
      (by decide) (by decide)).1⟩

/-- Claim C10 counterexample: a cell that lacks the date attribute but has
non-empty, non-numeric text makes the loop evaluate int() before looking
at the attribute, so get_contributions raises ValueError instead of
returning the empty table. -/
theorem c10_malformed_text_counterexample :
    badCell.dataDate = none
    ∧ get_contributions "alice" ⟨"<html></html>", some [badCell]⟩ =
        .error (.valueErrorInt "garbage") := by
  exact ⟨rfl, by decide⟩

lemma filter_eq_nil_of_not_mem_keys (tbl : List (String × Int)) (d : String)
    (h : d ∉ tbl.map Prod.fst) : tbl.filter (fun p => p.1 == d) = [] := by
  induction tbl with
  | nil => rfl
  | cons p rest ih =>
    simp only [List.map_cons, List.mem_cons, not_or] at h
    obtain ⟨h1, h2⟩ := h
    have hpd : (p.1 == d) = false := beq_eq_false_iff_ne.mpr (fun he => h1 he.symm)
    simp [List.filter_cons, hpd, ih h2]

lemma keys_locSet (tbl : List (String × Int)) (d : String) (n : Int) :
    (locSet tbl d n).map Prod.fst =
      if d ∈ tbl.map Prod.fst then tbl.map Prod.fst
      else tbl.map Prod.fst ++ [d] := by
  induction tbl with
  | nil => simp [locSet]
  | cons p rest ih =>
    rcases p with ⟨d0, n0⟩
    by_cases hpd : d0 = d
    · subst hpd
      simp [locSet]
    · simp only [locSet, if_neg hpd, List.map_cons]
      rw [ih]
      by_cases hd : d ∈ rest.map Prod.fst
      · simp [hd, List.mem_cons]
      · have hnot : d ∉ d0 :: rest.map Prod.fst := by
          intro hmem
          rcases List.mem_cons.mp hmem with he | hm
          · exact hpd he.symm
          · exact hd hm
        rw [if_neg hd, if_neg hnot, List.cons_append]

lemma nodupKeys_locSet (tbl : List (String × Int)) (d : String) (n : Int)
    (h : NodupKeys tbl) : NodupKeys (locSet tbl d n) := by
  unfold NodupKeys at h ⊢
  rw [keys_locSet]
  by_cases hd : d ∈ tbl.map Prod.fst
  · rwa [if_pos hd]
  · rw [if_neg hd]
    rw [List.nodup_append]
    exact ⟨h, List.nodup_singleton d, by simpa using hd⟩

lemma locSet_filter_self (tbl : List (String × Int)) (d : String) (n : Int)
    (h : NodupKeys tbl) :
    (locSet tbl d n).filter (fun p => p.1 == d) = [(d, n)] := by
  induction tbl with
  | nil => simp [locSet, List.filter]
  | cons p rest ih =>
    rcases p with ⟨d0, n0⟩
    by_cases hpd : d0 = d
    · subst hpd
      simp only [locSet, if_pos rfl]
      have hd0 : d0 ∉ rest.map Prod.fst := by
        unfold NodupKeys at h
        simp only [List.map_cons] at h
        exact (List.nodup_cons.mp h).1
      simp [List.filter_cons, filter_eq_nil_of_not_mem_keys rest d0 hd0]
    · have hrest : NodupKeys rest := by
        unfold NodupKeys at h ⊢
        simp only [List.map_cons] at h
        exact (List.nodup_cons.mp h).2
      have hf : (d0 == d) = false := beq_eq_false_iff_ne.mpr hpd
      simp only [locSet, if_neg hpd]
      simp [List.filter_cons, hf, ih hrest]

lemma locSet_filter_other (tbl : List (String × Int)) (d : String) (n : Int)
    (d2 : String) (hne : ¬ d = d2) :
    (locSet tbl d n).filter (fun p => p.1 == d2) =
      tbl.filter (fun p => p.1 == d2) := by
  induction tbl with
  | nil => simp [locSet, List.filter, beq_eq_false_iff_ne.mpr hne]
  | cons p rest ih =>
    rcases p with ⟨d0, n0⟩
    by_cases hpd : d0 = d
    · subst hpd
      simp only [locSet, if_pos rfl]
      simp [List.filter_cons, beq_eq_false_iff_ne.mpr hne]
    · simp only [locSet, if_neg hpd]
      simp [List.filter_cons, ih]

lemma lastValue_foldl_init (d : String) (l : List (String × Int)) :
    ∀ o : Option Int,
      l.foldl (fun o p => if p.1 == d then some p.2 else o) o =
        match l.foldl (fun o p => if p.1 == d then some p.2 else o) none with
        | some v => some v
        | none => o := by
  induction l with
  | nil => intro o; rfl
  | cons p rest ih =>
    intro o
    simp only [List.foldl_cons]
    cases hb : (p.1 == d) with
    | true =>
      have htt : (true = true) := rfl
      rw [if_pos htt, if_pos htt, ih (some p.2)]
      rcases hr : rest.foldl (fun o p => if p.1 == d then some p.2 else o) none with _ | v <;>
        rw [hr]
    | false =>
      have hff : ¬ (false = true) := by simp
      rw [if_neg hff, if_neg hff, ih o]

lemma processCells_rel (cells : List Cell) :
    ∀ acc tbl, NodupKeys acc → processCells cells acc = .ok tbl →
      NodupKeys tbl ∧ ∀ d : String,
        (tbl.filter (fun p => p.1 == d)).map Prod.snd =
          match lastValue (extractedPairs cells) d with
          | some v => [v]
          | none => (acc.filter (fun p => p.1 == d)).map Prod.snd := by
  induction cells with
  | nil =>
    intro acc tbl hacc h
    injection h with h2
    subst h2
    exact ⟨hacc, fun d => rfl⟩
  | cons c rest ih =>
    intro acc tbl hacc h
    simp only [processCells] at h
    split at h
    · exact Except.noConfusion h
    · rename_i acc2 heq
      by_cases ht : c.text = ""
      · have hacc2 : acc2 = acc := by
          simp only [cellStep, if_pos ht] at heq
          exact (Except.ok.inj heq).symm
        rw [hacc2] at h
        have hext : extractedPairs (c :: rest) = extractedPairs rest := by
          simp [extractedPairs, ht]
        rw [hext]
        exact ih acc tbl hacc h
      · rcases hc : cellCount c with e | n
        · simp only [cellStep, if_neg ht, hc] at heq
          exact Except.noConfusion heq
        · cases hd : c.dataDate with
          | none =>
            have hacc2 : acc2 = acc := by
              simp only [cellStep, if_neg ht, hc, hd] at heq
              exact (Except.ok.inj heq).symm
            rw [hacc2] at h
            have hext : extractedPairs (c :: rest) = extractedPairs rest := by
              simp [extractedPairs, ht, hc, hd]
            rw [hext]
            exact ih acc tbl hacc h
          | some d2 =>
            by_cases hd2 : d2 = ""
            · subst hd2
              have hacc2 : acc2 = acc := by
                simp only [cellStep, if_neg ht, hc, hd] at heq
                simp at heq
                exact heq.symm
              rw [hacc2] at h
              have hext : extractedPairs (c :: rest) = extractedPairs rest := by
                simp [extractedPairs, ht, hc, hd]
              rw [hext]
              exact ih acc tbl hacc h
            · have hacc2 : acc2 = locSet acc d2 n := by
                simp only [cellStep, if_neg ht, hc, hd, if_neg hd2] at heq
                exact (Except.ok.inj heq).symm
              rw [hacc2] at h
              obtain ⟨hnd, hrel⟩ := ih (locSet acc d2 n) tbl
                (nodupKeys_locSet acc d2 n hacc) h
              refine ⟨hnd, fun d => ?_⟩
              have hext : extractedPairs (c :: rest) = (d2, n) :: extractedPairs rest := by
                simp [extractedPairs, ht, hc, hd, hd2]
              rw [hext]
              simp only [lastValue, List.foldl_cons]
              by_cases hdd : d2 = d
              · subst hdd
                simp only [beq_self_eq_true, if_true]
                rw [lastValue_foldl_init d2 (extractedPairs rest) (some n)]
                rw [hrel d2]
                rcases hr : lastValue (extractedPairs rest) d2 with _ | v
                · simp only [lastValue] at hr
                  rw [hr]
                  simp [locSet_filter_self acc d2 n hacc]
                · simp only [lastValue] at hr
                  rw [hr]
              · have hbf : (d2 == d) = false := beq_eq_false_iff_ne.mpr hdd
                simp only [hbf, Bool.false_eq_true, if_false]
                rw [hrel d]
                rcases hr : lastValue (extractedPairs rest) d with _ | v
                · simp only [lastValue] at hr
                  rw [hr]
                  simp [locSet_filter_other acc d2 n d hdd]
                · simp only [lastValue] at hr
                  rw [hr]

/-- Claim C2: after the extraction loop, table keys are pairwise distinct,
and for every date the (at most one) record carrying it holds the count of
the last extracted pair with that date, in document order. -/
theorem c2_last_write_wins (cells : List Cell) (tbl : List (String × Int))
    (h : processCells cells [] = .ok tbl) :
    NodupKeys tbl ∧ ∀ d : String,
      (tbl.filter (fun p => p.1 == d)).map Prod.snd =
        (lastValue (extractedPairs cells) d).toList := by
  obtain ⟨hnd, hrel⟩ := processCells_rel cells [] tbl (by simp [NodupKeys]) h
  refine ⟨hnd, fun d => ?_⟩
  rw [hrel d]
  rcases lastValue (extractedPairs cells) d with _ | v <;> rfl

theorem c2_last_write_wins_witness :
    processCells dupCells [] = .ok [("2024-01-01", 5)]
    ∧ (NodupKeys [("2024-01-01", 5)] ∧ ∀ d : String,
        ((([("2024-01-01", 5)] : List (String × Int)).filter
          (fun p => p.1 == d)).map Prod.snd) =
          (lastValue (extractedPairs dupCells) d).toList) :=
  ⟨by decide, c2_last_write_wins dupCells [("2024-01-01", 5)] (by decide)⟩

lemma sortedKeys_nodup (t : List (Date × Int)) : (sortedKeys t).Nodup :=
  ((List.perm_insertionSort (fun a b => a ≤ b) ((t.map keyOf).dedup)).nodup_iff).mpr
    (List.nodup_dedup _)

lemma mem_sortedKeys (t : List (Date × Int)) (k : Int) :
    k ∈ sortedKeys t ↔ k ∈ t.map keyOf :=
  ((List.perm_insertionSort (fun a b => a ≤ b) ((t.map keyOf).dedup)).mem_iff).trans
    List.mem_dedup

lemma dayOfWeek_bounds (dt : Date) : 0 ≤ dayOfWeek dt ∧ dayOfWeek dt ≤ 6 := by
  unfold dayOfWeek
  constructor
  · exact Int.emod_nonneg _ (by norm_num)
  · have := Int.emod_lt_of_pos (daysFromCivil dt + 3) (show (0:Int) < 7 by norm_num)
    omega

lemma sortedKeys_sub_range (t : List (Date × Int)) :
    ∀ k ∈ sortedKeys t, k ∈ ([0, 1, 2, 3, 4, 5, 6] : List Int) := by
  intro k hk
  rw [mem_sortedKeys] at hk
  obtain ⟨p, _, rfl⟩ := List.mem_map.mp hk
  have hb := dayOfWeek_bounds p.1
  simp only [keyOf]
  simp only [List.mem_cons, List.not_mem_nil, or_false]
  omega

lemma nodup_length_le (l m : List Int) (hl : l.Nodup) (hsub : ∀ x ∈ l, x ∈ m) :
    l.length ≤ m.length := by
  calc l.length = l.toFinset.card := (List.toFinset_card_of_nodup hl).symm
    _ ≤ m.toFinset.card :=
        Finset.card_le_card
          (fun x hx => List.mem_toFinset.mpr (hsub x (List.mem_toFinset.mp hx)))
    _ ≤ m.length := List.toFinset_card_le m

lemma sum_bucket_lengths (ks : List Int) : ∀ t : List (Date × Int), ks.Nodup →
    (∀ p ∈ t, keyOf p ∈ ks) →
    (ks.map (fun k => (bucket t k).length)).sum = t.length := by
  induction ks with
  | nil =>
    intro t _ hall
    have ht : t = [] := by
      cases t with
      | nil => rfl
      | cons p rest => exact absurd (hall p (List.mem_cons_self p rest)) (List.not_mem_nil _)
    simp [ht]
  | cons k ks ih =>
    intro t hnd hall
    have hknotin := (List.nodup_cons.mp hnd).1
    have hnd2 := (List.nodup_cons.mp hnd).2
    simp only [List.map_cons, List.sum_cons]
    have hall2 : ∀ p ∈ t.filter (fun p => !(keyOf p == k)), keyOf p ∈ ks := by
      intro p hp
      obtain ⟨hpt, hneq⟩ := List.mem_filter.mp hp
      rcases List.mem_cons.mp (hall p hpt) with he | hm
      · exfalso
        rw [he] at hneq
        simp at hneq
      · exact hm
    have hmap : ks.map (fun k2 => (bucket t k2).length) =
        ks.map (fun k2 => (bucket (t.filter (fun p => !(keyOf p == k))) k2).length) := by
      apply List.map_congr_left
      intro k2 hk2
      have hk2ne : k2 ≠ k := fun he => hknotin (he ▸ hk2)
      unfold bucket
      rw [List.filter_filter]
      congr 1
      congr 1
      apply List.filter_congr
      intro p _
      cases hpk : (keyOf p == k2) with
      | true =>
        have : keyOf p = k2 := by simpa using hpk
        have : (keyOf p == k) = false := beq_eq_false_iff_ne.mpr (by rw [this]; exact hk2ne)
        simp [hpk, this]
      | false => simp [hpk]
    rw [hmap, ih (t.filter (fun p => !(keyOf p == k))) hnd2 hall2]
    unfold bucket
    rw [List.length_map]
    exact (List.length_eq_length_filter_add (fun p => keyOf p == k)).symm

/-- Claim C7 (amended): every derived day_of_week lies in the range 0 to 6,
and the group-by listing has one bucket per distinct weekday present (at
most 7) whose sizes sum to the table size; when every weekday from 0 to 6
occurs among the keys there are exactly 7 buckets. -/
theorem c7_weekday_partition (t : List (Date × Int)) :
    (∀ p ∈ t, 0 ≤ dayOfWeek p.1 ∧ dayOfWeek p.1 ≤ 6)
    ∧ (groupList t).length = (sortedKeys t).length
    ∧ (sortedKeys t).length ≤ 7
    ∧ ((groupList t).map List.length).sum = t.length
    ∧ ((∀ k ∈ ([0, 1, 2, 3, 4, 5, 6] : List Int), k ∈ sortedKeys t) →
        (groupList t).length = 7) := by
  have hle : (sortedKeys t).length ≤ 7 := by
    have := nodup_length_le (sortedKeys t) [0, 1, 2, 3, 4, 5, 6]
      (sortedKeys_nodup t) (sortedKeys_sub_range t)
    simpa using this
  refine ⟨fun p _ => dayOfWeek_bounds p.1, by simp [groupList], hle, ?_, ?_⟩
  · rw [groupList, List.map_map]
    exact sum_bucket_lengths (sortedKeys t) t (sortedKeys_nodup t)
      (fun p hp => (mem_sortedKeys t (keyOf p)).mpr (List.mem_map.mpr ⟨p, hp, rfl⟩))
  · intro hall
    have h7 : (7:Nat) ≤ (sortedKeys t).length := by
      have := nodup_length_le [0, 1, 2, 3, 4, 5, 6] (sortedKeys t) (by decide) hall
      simpa using this
    rw [groupList, List.length_map]
    omega

/-- Claim C7 counterexample: a non-empty table whose records all fall on
one weekday produces a single group bucket, not 7. -/
theorem c7_single_day_counterexample :
    singleDayTable ≠ []
    ∧ groupList singleDayTable = [[5]]
    ∧ (groupList singleDayTable).length ≠ 7 := by
  refine ⟨by decide, by decide, by decide⟩

theorem c7_weekday_partition_witness :
    (∀ k ∈ ([0, 1, 2, 3, 4, 5, 6] : List Int), k ∈ sortedKeys tWeek)
    ∧ (groupList tWeek).length = 7 :=
  ⟨by decide, (c7_weekday_partition tWeek).2.2.2.2 (by decide)⟩

lemma dleb_refl (a : Date) : dleb a a = true := by simp [dleb]

lemma dleb_trans (a b c : Date) (h1 : dleb a b = true) (h2 : dleb b c = true) :
    dleb a c = true := by
  simp only [dleb, decide_eq_true_eq] at h1 h2 ⊢
  omega

lemma chronB_cons (a : Date) (l : List Date) (h : chronB (a :: l) = true) :
    chronB l = true ∧ ∀ b ∈ l, dleb a b = true := by
  induction l generalizing a with
  | nil => exact ⟨rfl, by simp⟩
  | cons b m ih =>
    simp only [chronB, Bool.and_eq_true] at h
    obtain ⟨hab, hbm⟩ := h
    obtain ⟨_, hball⟩ := ih b hbm
    refine ⟨hbm, ?_⟩
    intro x hx
    rcases List.mem_cons.mp hx with rfl | hx2
    · exact hab
    · exact dleb_trans a b x hab (hball x hx2)

lemma chronB_le_getLast : ∀ (l : List Date), chronB l = true → ∀ hne : l ≠ [],
    ∀ b ∈ l, dleb b (l.getLast hne) = true := by
  intro l
  induction l with
  | nil => intro _ hne; exact absurd rfl hne
  | cons a m ih =>
    intro h hne b hb
    cases m with
    | nil =>
      have hb2 : b = a := by simpa using hb
      subst hb2
      exact dleb_refl b
    | cons c m2 =>
      obtain ⟨hcm, hall⟩ := chronB_cons a (c :: m2) h
      rw [List.getLast_cons (List.cons_ne_nil c m2)]
      rcases List.mem_cons.mp hb with rfl | hb2
      · exact hall _ (List.getLast_mem (List.cons_ne_nil c m2))
      · exact ih hcm (List.cons_ne_nil c m2) b hb2

/-- Claim C8 (amended): the timeframe box shows the dates of the first and
last rows of the table; when the dates are in chronological order these are
lower and upper bounds of all dates in the table (and members of it), that
is, the minimum and the maximum date. -/
theorem c8_timeframe_chronological (t : List (Date × Int)) (u : String)
    (hch : chronB (t.map Prod.fst) = true) :
    ∀ se ∈ figTimeframe (plot_contributions t u),
      se.1 ∈ t.map Prod.fst ∧ se.2 ∈ t.map Prod.fst
      ∧ ∀ d ∈ t.map Prod.fst, dleb se.1 d = true ∧ dleb d se.2 = true := by
  intro se hse
  cases t with
  | nil => simp [plot_contributions, figTimeframe] at hse
  | cons p rest =>
    rcases hcu : add_means_curve (p :: rest) with _ | curve
    · simp only [plot_contributions, hcu, figTimeframe] at hse
      exact absurd hse (by simp)
    · have hse2 : se = (p.1, ((p :: rest).getLast (List.cons_ne_nil p rest)).1) := by
        simp only [plot_contributions, hcu, figTimeframe, Option.mem_def,
          Option.some.injEq] at hse
        exact hse.symm
      subst hse2
      have hmapne : (p :: rest).map Prod.fst ≠ [] := by simp
      have hlast : ((p :: rest).map Prod.fst).getLast hmapne =
          ((p :: rest).getLast (by simp)).1 :=
        List.getLast_map Prod.fst (p :: rest) hmapne
      have hhead : ∀ d ∈ (p :: rest).map Prod.fst, dleb p.1 d = true := by
        have hc := chronB_cons p.1 (rest.map Prod.fst) hch
        intro d hd
        rw [List.map_cons] at hd
        rcases List.mem_cons.mp hd with rfl | hd2
        · exact dleb_refl p.1
        · exact hc.2 d hd2
      refine ⟨by simp, ?_, fun d hd => ⟨hhead d hd, ?_⟩⟩
      · rw [← hlast]
        exact List.getLast_mem hmapne
      · rw [← hlast]
        exact chronB_le_getLast ((p :: rest).map Prod.fst) hch hmapne d hd

theorem c8_timeframe_chronological_witness :
    chronB (tWeek.map Prod.fst) = true
    ∧ ∀ se ∈ figTimeframe (plot_contributions tWeek "u"),
        se.1 ∈ tWeek.map Prod.fst ∧ se.2 ∈ tWeek.map Prod.fst
        ∧ ∀ d ∈ tWeek.map Prod.fst, dleb se.1 d = true ∧ dleb d se.2 = true :=
  ⟨by decide, c8_timeframe_chronological tWeek "u" (by decide)⟩

/-- Claim C8 counterexample: with records inserted out of chronological
order the rendered figure exists and its timeframe box shows the first and
last rows (January 8 and January 7), not the minimum and maximum dates of
the table: the shown start is not a lower bound of the dates and the shown
end is not an upper bound. -/
theorem c8_out_of_order_counterexample :
    figTimeframe (plot_contributions tOutOfOrder "u") =
      some (⟨2024, 1, 8⟩, ⟨2024, 1, 7⟩)
    ∧ (⟨2024, 1, 2⟩ : Date) ∈ tOutOfOrder.map Prod.fst
    ∧ dleb ⟨2024, 1, 8⟩ ⟨2024, 1, 2⟩ = false
    ∧ (⟨2024, 1, 8⟩ : Date) ∈ tOutOfOrder.map Prod.fst
    ∧ dleb ⟨2024, 1, 8⟩ ⟨2024, 1, 7⟩ = false := by
  refine ⟨rfl, by decide, by decide, by decide, by decide⟩

/-- Claim C6: when all 7 weekdays occur (the sorted distinct keys are
Monday through Sunday), the curve computed by add_means is exactly the
spec-worded pipeline applied to the weekday means, and the evaluation grid
has exactly 100 points, evenly spaced from 1 to 7. -/
theorem c6_smooth_curve_pipeline (t : List (Date × Int))
    (h : sortedKeys t = [0, 1, 2, 3, 4, 5, 6]) :
    add_means_curve t = spec_smooth_curve (weekdayMeans t)
    ∧ (linspace 1 7 100).length = 100
    ∧ (∀ i : Nat, i < 100 →
        (linspace 1 7 100)[i]? = some (1 + 6 * (i : Q) / 99))
    ∧ (linspace 1 7 100).headD 0 = 1
    ∧ (linspace 1 7 100).getLastD 0 = 7 := by
  refine ⟨?_, by simp only [linspace, List.length_map, List.length_range], ?_,
    by decide, by decide⟩
  · have hx : ((([0, 1, 2, 3, 4, 5, 6] : List Int)).map
        (fun k => ((k : Int), qmean (bucket t k)))).map
          (fun p => ((p.1 : Q) + 1)) = [1, 2, 3, 4, 5, 6, 7] := by
      simp only [List.map_cons, List.map_nil]
      decide
    simp only [add_means_curve, spec_smooth_curve, weekdayMeans, groupMeans, h]
    rw [hx]
  · intro i hi
    have hr : (List.range 100)[i]? = some i := by
      simp [List.getElem?_range, hi]
    simp only [linspace, List.getElem?_map, hr, Option.map_some]
    have h1 : (7 : Q) - 1 = 6 := by decide
    have h2 : ((100 : Nat) : Q) - 1 = 99 := by decide
    rw [h1, h2]
    rfl

theorem c6_smooth_curve_pipeline_witness :
    sortedKeys tWeek = [0, 1, 2, 3, 4, 5, 6]
    ∧ add_means_curve tWeek = spec_smooth_curve (weekdayMeans tWeek) :=
  ⟨by decide, (c6_smooth_curve_pipeline tWeek (by decide)).1⟩
